import Mathlib

/-!
Verification of the advanced-vector container (src/advanced-vector/vector.h):
a shallow embedding of `RawMemory<T>` and `Vector<T>` and proofs of the
specification's claims about them.

Element types are modelled by a value type `α` together with `Traits`, the two
compile-time predicates the source consults (`std::is_nothrow_move_constructible_v<T>`
and `std::is_copy_constructible_v<T>`).  A vector state carries the list of
live element values (`data`, the region `[0, size_)`), the capacity of the
owned block (`cap`) and an identity tag for the owned block (`blk`), which
changes exactly when the source swaps a freshly allocated block in.
-/

namespace AdvVector

/-- Compile-time traits of the element type `T` consulted by the source's
`if constexpr` relocation choice. -/
structure Traits where
  nothrowMove : Bool
  copyCtor : Bool
  deriving Repr, DecidableEq

variable {α : Type}

/-- Effect of `std::uninitialized_move_n(src, n, dst)` on the value sequence
written into the destination block. -/
def uninitMoveN (src : List α) (n : Nat) : List α := src.take n

/-- Effect of `std::uninitialized_copy_n(src, n, dst)` on the value sequence
written into the destination block. -/
def uninitCopyN (src : List α) (n : Nat) : List α := src.take n

/-- The relocation step shared by `Reserve`, `EmplaceBack` and `Emplace`:
`if constexpr (std::is_nothrow_move_constructible_v<T> || !std::is_copy_constructible_v<T>)`
then `std::uninitialized_move_n(buf, size, new)` else
`std::uninitialized_copy_n(buf, size, new)`.  Returns the migrated sequence
and whether the move path was taken. -/
def relocate (t : Traits) (buf : List α) : List α × Bool :=
  if t.nothrowMove || !t.copyCtor then (uninitMoveN buf buf.length, true)
  else (uninitCopyN buf buf.length, false)

/-- State of a `Vector<T>`: live elements, capacity of the owned raw block,
and an identity tag of that block. -/
structure Vec (α : Type) where
  data : List α
  cap : Nat
  blk : Nat
  deriving Repr, DecidableEq

/-- `Vector()` : default state. -/
def vecDefault : Vec α := ⟨[], 0, 0⟩

/-- `Vector(size_t size)` : `size` value-constructed (default-valued) elements
in an exactly sized block. -/
def vecOfSize (n : Nat) (d : α) : Vec α := ⟨List.replicate n d, n, 1⟩

/-- `Vector::Reserve(new_capacity)`: no-op when `new_capacity <= Capacity()`;
otherwise allocate a new block, relocate (move or copy per `relocate`),
destroy the originals and swap the blocks.  The second component records
whether relocation happened and, if so, whether it moved. -/
def Reserve (t : Traits) (v : Vec α) (n : Nat) : Vec α × Option Bool :=
  if n ≤ v.cap then (v, none)
  else
    let r := relocate t v.data
    ({ data := r.fst, cap := n, blk := v.blk + 1 }, some r.snd)

/-- `Vector::EmplaceBack(args...)`: when `size_ == Capacity()` build a new
vector of capacity `size_ == 0 ? 1 : size_ * 2`, construct the new element at
slot `size_` of the new block, relocate the old elements, and swap; otherwise
construct in place at slot `size_`.  Returns the new state and the index the
returned reference points at. -/
def EmplaceBack (t : Traits) (v : Vec α) (x : α) : Vec α × Nat :=
  if v.data.length = v.cap then
    let newCap := if v.data.length = 0 then 1 else v.data.length * 2
    let r := relocate t v.data
    ({ data := r.fst ++ [x], cap := newCap, blk := v.blk + 1 }, v.data.length)
  else
    ({ data := v.data ++ [x], cap := v.cap, blk := v.blk }, v.data.length)

/-- Return value of a `Vector` member function: `vd` models a `void` return,
`ref i` a returned reference to the element at index `i`. -/
inductive RetVal where
  | vd
  | ref (i : Nat)
  deriving Repr, DecidableEq

/-- `Vector::PushBack(value)`: `void PushBack(const T& value) { EmplaceBack(value); }`
— delegates and discards the reference (the function returns `void`). -/
def PushBack (t : Traits) (v : Vec α) (x : α) : Vec α × RetVal :=
  ((EmplaceBack t v x).fst, RetVal.vd)

/-- `Vector::PopBack()`: destroys the last element and decrements `size_`. -/
def PopBack (v : Vec α) : Vec α :=
  { v with data := v.data.dropLast }

/-- Effect of writing the value sequence `seg` into the buffer `buf` starting
at slot `pos` (the common shape of the STL range-writing calls below). -/
def writeSeg (buf : List α) (pos : Nat) (seg : List α) : List α :=
  buf.take pos ++ seg ++ buf.drop (pos + seg.length)

/-- Effect of `std::move_backward(buf + first, buf + last, buf + dlast)` on the
value sequence: the segment `[first, last)` is written so that it ends at
`dlast`.  (Because `move_backward` copies from the back, the overlapping case
behaves as if the source segment were snapshotted first.) -/
def moveBackwardSeg (buf : List α) (first last dlast : Nat) : List α :=
  writeSeg buf (dlast - (last - first)) ((buf.drop first).take (last - first))

/-- The non-growing branch of `Vector::Emplace` (`size_ < Capacity()`,
`pos != end()`), line by line: construct the old last element into the slot
`size_` (`new(end()) T(std::move(*(end() - 1)))`), shift `[index, size_ - 1)`
right by one (`std::move_backward(begin() + index, end() - 1, end())`), and
move the new value into slot `index`
(`std::move(elem_pointer, elem_pointer + 1, begin() + index)`). -/
def emplaceNoGrow (buf : List α) (index : Nat) (x : α) : List α :=
  writeSeg
    (moveBackwardSeg
      (writeSeg buf buf.length ((buf.drop (buf.length - 1)).take 1))
      index (buf.length - 1) buf.length)
    index [x]

/-- `Vector::Emplace(pos, args...)` with `index = pos - begin()`: delegate to
`EmplaceBack` when `pos == end()`; otherwise, when `size_ == Capacity()`,
construct the new element at slot `index` of a new block and relocate the
prefix `[0, index)` and the suffix `[index, size_)` (shifted by one) around
it; otherwise shift in place.  Returns the new state and the index of the
returned iterator (`begin() + index`). -/
def Emplace (t : Traits) (v : Vec α) (index : Nat) (x : α) : Vec α × Nat :=
  if index = v.data.length then
    ((EmplaceBack t v x).fst, index)
  else
    if v.data.length = v.cap then
      let newCap := if v.data.length = 0 then 1 else v.data.length * 2
      let pre := relocate t (v.data.take index)
      let suf := relocate t (v.data.drop index)
      ({ data := pre.fst ++ [x] ++ suf.fst, cap := newCap, blk := v.blk + 1 }, index)
    else
      ({ data := emplaceNoGrow v.data index x, cap := v.cap, blk := v.blk }, index)

/-- `Vector::Erase(pos)` with `index = pos - begin()`:
`std::move(begin() + index + 1, end(), begin() + index)` then `PopBack()`.
Returns the new state and the index of the returned iterator. -/
def EraseV (v : Vec α) (index : Nat) : Vec α × Nat :=
  let moved := writeSeg v.data index
    ((v.data.drop (index + 1)).take (v.data.length - (index + 1)))
  ({ v with data := moved.dropLast }, index)

/-- `Vector::Insert(pos, value)`: `return Emplace(pos, value);`. -/
def Insert (t : Traits) (v : Vec α) (index : Nat) (x : α) : Vec α × Nat :=
  Emplace t v index x

/-- `Vector::Resize(new_size)`: destroy the tail when shrinking; `Reserve` and
value-construct (default-valued) new tail elements when growing. -/
def Resize (t : Traits) (v : Vec α) (n : Nat) (d : α) : Vec α :=
  if n < v.data.length then { v with data := v.data.take n }
  else if v.data.length < n then
    { data := (Reserve t v n).fst.data ++ List.replicate (n - v.data.length) d,
      cap := (Reserve t v n).fst.cap, blk := (Reserve t v n).fst.blk }
  else v

/-- `Vector::Swap(other)`: exchanges `data_` (block and capacity) and `size_`. -/
def SwapV (v w : Vec α) : Vec α × Vec α := (w, v)

/-- `size_t` values wrap modulo `2 ^ 64`. -/
def usize : Nat := 2 ^ 64

/-- `size_t` subtraction `a - b` (wrapping). -/
def usizeSub (a b : Nat) : Nat := (a + usize - b) % usize

/-- `Vector::operator=(const Vector&)`: guarded by `this != &rhs` (`same`
models the pointer-equality outcome); if the source is larger than the
capacity, build a copy and swap it in (fresh block, exactly sized); otherwise
assign over the common prefix and either destroy the excess tail (shrinking)
or copy-construct the excess tail from the source (growing). -/
def copyAssign (self rhs : Vec α) (same : Bool) : Vec α :=
  if same then self
  else if self.cap < rhs.data.length then
    { data := rhs.data, cap := rhs.data.length, blk := self.blk + 1 }
  else if rhs.data.length < self.data.length then
    { self with data := (writeSeg self.data 0 rhs.data).take rhs.data.length }
  else
    { self with data :=
        writeSeg self.data 0 (rhs.data.take self.data.length) ++
          (rhs.data.drop self.data.length).take (rhs.data.length - self.data.length) }

/-- Outcome of `Vector::operator=(Vector&&)`: the two objects' states, plus the
`(offset, count)` arguments of the `std::destroy_n` call the shrinking branch
performs (`none` when that branch is not taken). -/
structure MoveAssignRes (α : Type) where
  self : Vec α
  rhs : Vec α
  destroyCall : Option (Nat × Nat)
  deriving Repr, DecidableEq

/-- `Vector::operator=(Vector&&)`: guarded by `this != &rhs`; if the source is
larger than the capacity, move-construct a copy and swap it in; otherwise
`Swap(rhs)`, and — in the shrinking branch — afterwards call
`std::destroy_n(data_.GetAddress() + rhs.size_, size_ - rhs.size_)`, whose
arguments are evaluated AFTER the swap, so `rhs.size_` is the destination's
old size and `size_ - rhs.size_` is a wrapping `size_t` subtraction. -/
def moveAssign (self rhs : Vec α) (same : Bool) : MoveAssignRes α :=
  if same then ⟨self, rhs, none⟩
  else if self.cap < rhs.data.length then
    ⟨{ data := rhs.data, cap := rhs.cap, blk := rhs.blk },
      { data := [], cap := 0, blk := 0 }, none⟩
  else if rhs.data.length < self.data.length then
    ⟨rhs, self, some (self.data.length, usizeSub rhs.data.length self.data.length)⟩
  else
    ⟨rhs, self, none⟩

/-- State of a `RawMemory<T>`: the owned block's identity (`none` when not
owning) and its capacity. -/
structure RawMemory where
  buffer : Option Nat
  capacity : Nat
  deriving Repr, DecidableEq

/-- Outcome of `RawMemory::operator=(RawMemory&&)`: both objects' states, the
block released by the destructor-style statement, and whether the function
returns a reference to the destination. -/
structure RawMoveRes where
  dst : RawMemory
  src : RawMemory
  freed : Option Nat
  returned : Bool
  deriving Repr, DecidableEq

/-- `RawMemory::operator=(RawMemory&&)` as written in the source: on
self-assignment, `return *this`; otherwise the statement written as a
destructor invocation (`~RawMemory();`) releases the currently owned block,
the fields are transferred, the source is nulled, and the body ends WITHOUT a
return statement (`returned := false`). -/
def rawMoveAssign (dst src : RawMemory) (same : Bool) : RawMoveRes :=
  if same then ⟨dst, src, none, true⟩
  else ⟨⟨src.buffer, src.capacity⟩, ⟨none, 0⟩, dst.buffer, false⟩

/-- Contents of the destroyed slot range of `std::destroy_n(buf + off, cnt)`:
a slot holds `some a` when a live object is there, `none` when the slot is
uninitialized raw memory. -/
def destroySlots (slots : List (Option α)) (off cnt : Nat) : List (Option α) :=
  (slots.drop off).take cnt

/-- A `std::destroy_n(buf + off, cnt)` call is defined behaviour only when
every slot it destroys holds a live object. -/
def destroyOkB (slots : List (Option α)) (off cnt : Nat) : Bool :=
  (destroySlots slots off cnt).all fun s => s.isSome

/-- `Vector::EmplaceBack` growth path at the moment constructing the new
element throws: the local `new_vector` holds a freshly reserved buffer of
`size_ == 0 ? 1 : size_ * 2` uninitialized slots, and its `size_` field was
already set to the old size; stack unwinding then runs `~Vector`, i.e.
`std::destroy_n(new_vector.data_.GetAddress(), new_vector.size_)`.  Returns
`((new_vector's slots, offset, count of that destroy call), *this)` — the
original vector itself is untouched by this path. -/
def emplaceBackThrowState (v : Vec α) : (List (Option α) × Nat × Nat) × Vec α :=
  ((List.replicate (if v.data.length = 0 then 1 else v.data.length * 2) (none : Option α),
    0, v.data.length), v)

/-- A `PushBack`/`PopBack` interaction step. -/
inductive PP (α : Type) where
  | push (x : α)
  | pop
  deriving Repr, DecidableEq

/-- The precondition of claim C5: a pop is applied only when the size (tracked
abstractly) is positive. -/
def ppValidB : Nat → List (PP α) → Bool
  | _, [] => true
  | s, PP.push _ :: r => ppValidB (s + 1) r
  | s, PP.pop :: r => decide (0 < s) && ppValidB (s - 1) r

/-- Run an interleaved sequence of `PushBack` and `PopBack` on a vector. -/
def runPP (t : Traits) : Vec α → List (PP α) → Vec α
  | v, [] => v
  | v, PP.push x :: r => runPP t (PushBack t v x).fst r
  | v, PP.pop :: r => runPP t (PopBack v) r

def countPush : List (PP α) → Nat
  | [] => 0
  | PP.push _ :: r => countPush r + 1
  | PP.pop :: r => countPush r

def countPop : List (PP α) → Nat
  | [] => 0
  | PP.push _ :: r => countPop r
  | PP.pop :: r => countPop r + 1

/-- Specification-side reference semantics for claim C5, following the spec's
words: the sequence of pushed values not yet popped, in push order (a pop
removes the most recently pushed remaining value). -/
def specStack : List α → List (PP α) → List α
  | acc, [] => acc
  | acc, PP.push x :: r => specStack (acc ++ [x]) r
  | acc, PP.pop :: r => specStack acc.dropLast r

/-- Repeated appends (`EmplaceBack`), for the reservation claim. -/
def pushAll (t : Traits) (v : Vec α) (xs : List α) : Vec α :=
  xs.foldl (fun w x => (EmplaceBack t w x).fst) v

/-- The operations of the public mutating interface, for the reachability
invariant claim.  Assignment, and swap carry the other operand's state. -/
inductive VOp (α : Type) where
  | reserveOp (n : Nat)
  | resizeOp (n : Nat) (d : α)
  | pushOp (x : α)
  | popOp
  | emplaceBackOp (x : α)
  | emplaceOp (i : Nat) (x : α)
  | insertOp (i : Nat) (x : α)
  | eraseOp (i : Nat)
  | swapOp (w : Vec α)
  | copyAssignOp (w : Vec α)
  | moveAssignOp (w : Vec α)

/-- The data-model invariant: `0 <= size <= capacity` (the lower bound is
inherent to `Nat`). -/
abbrev VecInv (v : Vec α) : Prop := v.data.length ≤ v.cap

/-- Preconditions of each operation, as stated by the spec's operation table
(plus well-formedness of the other operand where one is involved). -/
def opValidB (v : Vec α) : VOp α → Bool
  | VOp.popOp => decide (0 < v.data.length)
  | VOp.emplaceOp i _ => decide (i ≤ v.data.length)
  | VOp.insertOp i _ => decide (i ≤ v.data.length)
  | VOp.eraseOp i => decide (i < v.data.length)
  | VOp.swapOp w => decide (VecInv w)
  | VOp.copyAssignOp w => decide (VecInv w)
  | VOp.moveAssignOp w => decide (VecInv w)
  | _ => true

/-- One step of the public interface. -/
def stepOp (t : Traits) (v : Vec α) : VOp α → Vec α
  | VOp.reserveOp n => (Reserve t v n).fst
  | VOp.resizeOp n d => Resize t v n d
  | VOp.pushOp x => (PushBack t v x).fst
  | VOp.popOp => PopBack v
  | VOp.emplaceBackOp x => (EmplaceBack t v x).fst
  | VOp.emplaceOp i x => (Emplace t v i x).fst
  | VOp.insertOp i x => (Insert t v i x).fst
  | VOp.eraseOp i => (EraseV v i).fst
  | VOp.swapOp w => (SwapV v w).fst
  | VOp.copyAssignOp w => copyAssign v w false
  | VOp.moveAssignOp w => (moveAssign v w false).self

/-- All preconditions hold along the run. -/
def validSeqB (t : Traits) (v : Vec α) : List (VOp α) → Bool
  | [] => true
  | op :: r => opValidB v op && validSeqB t (stepOp t v op) r

/-- Run a sequence of public-interface operations. -/
def runOps (t : Traits) (v : Vec α) : List (VOp α) → Vec α
  | [] => v
  | op :: r => runOps t (stepOp t v op) r

theorem relocate_fst (t : Traits) (buf : List α) : (relocate t buf).fst = buf := by
  unfold relocate uninitMoveN uninitCopyN
  split <;> simp

theorem relocate_snd (t : Traits) (buf : List α) :
    (relocate t buf).snd = (t.nothrowMove || !t.copyCtor) := by
  unfold relocate
  split <;> simp_all

/-- Claim C1: whenever live elements are migrated to a new block (in `Reserve`,
and in growth-triggered `EmplaceBack` or `Emplace`), the move path is taken
exactly when the element type's move construction is non-throwing or the type
is not copy-constructible, and the migrated sequence equals the original
sequence. -/
theorem relocation_rule (t : Traits) (v : Vec α) (n : Nat) (x : α) (i : Nat) :
    ((relocate t v.data).snd = true ↔ (t.nothrowMove = true ∨ t.copyCtor = false))
    ∧ (relocate t v.data).fst = v.data
    ∧ (v.cap < n →
        (Reserve t v n).fst.data = v.data ∧ (Reserve t v n).snd = some (relocate t v.data).snd)
    ∧ (v.data.length = v.cap →
        (EmplaceBack t v x).fst.data = v.data ++ [x])
    ∧ (i < v.data.length → v.data.length = v.cap →
        (Emplace t v i x).fst.data = v.data.take i ++ [x] ++ v.data.drop i) := by
  refine ⟨?_, relocate_fst t v.data, ?_, ?_, ?_⟩
  · rw [relocate_snd]
    cases t.nothrowMove <;> cases t.copyCtor <;> simp
  · intro h
    unfold Reserve
    rw [if_neg (by omega)]
    simp [relocate_fst]
  · intro h
    unfold EmplaceBack
    rw [if_pos h]
    simp [relocate_fst]
  · intro hi h
    unfold Emplace
    rw [if_neg (by omega), if_pos h]
    simp [relocate_fst]

/-- Witness for `relocation_rule` at a concrete type (throwing move,
copy-constructible: the copy path) and a concrete vector. -/
theorem relocation_rule_witness :
    ((relocate ⟨false, true⟩ [1, 2]).snd = true ↔
      ((false : Bool) = true ∨ (true : Bool) = false))
    ∧ (relocate ⟨false, true⟩ [1, 2]).fst = [1, 2]
    ∧ ((Reserve ⟨false, true⟩ (⟨[1, 2], 2, 0⟩ : Vec Nat) 5).fst.data = [1, 2]
        ∧ (Reserve ⟨false, true⟩ (⟨[1, 2], 2, 0⟩ : Vec Nat) 5).snd =
            some (relocate ⟨false, true⟩ [1, 2]).snd)
    ∧ (EmplaceBack ⟨false, true⟩ (⟨[1, 2], 2, 0⟩ : Vec Nat) 9).fst.data = [1, 2, 9]
    ∧ (Emplace ⟨false, true⟩ (⟨[1, 2], 2, 0⟩ : Vec Nat) 1 9).fst.data = [1, 9, 2] := by
  have h := relocation_rule ⟨false, true⟩ (⟨[1, 2], 2, 0⟩ : Vec Nat) 5 9 1
  exact ⟨h.1, h.2.1, h.2.2.1 (by decide), h.2.2.2.1 (by decide),
    h.2.2.2.2 (by decide) (by decide)⟩

theorem writeSeg_at_length (buf seg : List α) :
    writeSeg buf buf.length seg = buf ++ seg := by
  unfold writeSeg
  rw [List.take_length, List.drop_eq_nil_of_le (by omega)]
  simp

theorem emplaceBack_data (t : Traits) (v : Vec α) (x : α) :
    (EmplaceBack t v x).fst.data = v.data ++ [x] := by
  unfold EmplaceBack
  split <;> simp [relocate_fst]

theorem moveBackward_shift (buf t : List α) (i : Nat) (h : i < buf.length) :
    moveBackwardSeg (buf ++ t) i (buf.length - 1) buf.length
      = buf.take (i + 1) ++ ((buf.drop i).take (buf.length - 1 - i) ++ t) := by
  unfold moveBackwardSeg writeSeg
  have e1 : buf.length - (buf.length - 1 - i) = i + 1 := by omega
  have e2 : List.drop i (buf ++ t) = buf.drop i ++ t := by
    rw [List.drop_append_eq_append_drop, Nat.sub_eq_zero_of_le h.le, List.drop_zero]
  have e3 : List.take (buf.length - 1 - i) (buf.drop i ++ t)
      = (buf.drop i).take (buf.length - 1 - i) := by
    rw [List.take_append_eq_append_take]
    have e : buf.length - 1 - i - (buf.drop i).length = 0 := by
      rw [List.length_drop]; omega
    rw [e]
    simp
  have e4 : ((buf.drop i).take (buf.length - 1 - i)).length = buf.length - 1 - i := by
    rw [List.length_take, List.length_drop]; omega
  rw [e1, e2, e3, e4]
  have e5 : i + 1 + (buf.length - 1 - i) = buf.length := by omega
  rw [e5]
  have e6 : List.take (i + 1) (buf ++ t) = buf.take (i + 1) := by
    rw [List.take_append_eq_append_take]
    have e : i + 1 - buf.length = 0 := by omega
    rw [e]
    simp
  have e7 : List.drop buf.length (buf ++ t) = t := by
    rw [List.drop_append_eq_append_drop, List.drop_length, Nat.sub_self, List.drop_zero]
    simp
  rw [e6, e7, List.append_assoc]

theorem emplaceNoGrow_eq (buf : List α) (i : Nat) (x : α) (h : i < buf.length) :
    emplaceNoGrow buf i x = buf.take i ++ x :: buf.drop i := by
  unfold emplaceNoGrow
  have hd : (buf.drop (buf.length - 1)).take 1 = buf.drop (buf.length - 1) :=
    List.take_of_length_le (by rw [List.length_drop]; omega)
  rw [hd, writeSeg_at_length, moveBackward_shift buf _ i h]
  unfold writeSeg
  have hA : (buf.take (i + 1)).length = i + 1 := by
    rw [List.length_take]; omega
  have e1 : List.take i (buf.take (i + 1) ++
      ((buf.drop i).take (buf.length - 1 - i) ++ buf.drop (buf.length - 1)))
      = buf.take i := by
    rw [List.take_append_eq_append_take, hA]
    have e : i - (i + 1) = 0 := by omega
    rw [e, List.take_take]
    have e' : i ⊓ (i + 1) = i := by omega
    rw [e']
    simp
  have e2 : List.drop (i + 1) (buf.take (i + 1) ++
      ((buf.drop i).take (buf.length - 1 - i) ++ buf.drop (buf.length - 1)))
      = (buf.drop i).take (buf.length - 1 - i) ++ buf.drop (buf.length - 1) := by
    rw [List.drop_append_eq_append_drop, hA, Nat.sub_self, List.drop_zero,
      List.drop_eq_nil_of_le (by rw [hA])]
    simp
  have e3 : (buf.drop i).take (buf.length - 1 - i) ++ buf.drop (buf.length - 1)
      = buf.drop i := by
    have e : buf.drop (buf.length - 1) = (buf.drop i).drop (buf.length - 1 - i) := by
      rw [List.drop_drop]
      have e' : i + (buf.length - 1 - i) = buf.length - 1 := by omega
      rw [e']
    rw [e, List.take_append_drop]
  simp only [List.length_cons, List.length_nil]
  rw [e1]
  rw [show (1 : Nat) + 0 = 1 from rfl] at *
  rw [e2, e3]
  simp

theorem eraseV_data (v : Vec α) (i : Nat) (h : i < v.data.length) :
    (EraseV v i).fst.data = v.data.take i ++ v.data.drop (i + 1)
    ∧ (EraseV v i).snd = i := by
  refine ⟨?_, rfl⟩
  show (writeSeg v.data i
      ((v.data.drop (i + 1)).take (v.data.length - (i + 1)))).dropLast = _
  have hseg : (v.data.drop (i + 1)).take (v.data.length - (i + 1))
      = v.data.drop (i + 1) :=
    List.take_of_length_le (by rw [List.length_drop])
  unfold writeSeg
  rw [hseg, List.length_drop]
  have e : i + (v.data.length - (i + 1)) = v.data.length - 1 := by omega
  rw [e]
  obtain ⟨c, hc⟩ := List.length_eq_one.mp
    (show (v.data.drop (v.data.length - 1)).length = 1 by rw [List.length_drop]; omega)
  rw [hc, List.dropLast_concat]

theorem emplace_data (t : Traits) (v : Vec α) (i : Nat) (x : α) (h : i ≤ v.data.length) :
    (Emplace t v i x).fst.data = v.data.take i ++ x :: v.data.drop i
    ∧ (Emplace t v i x).snd = i := by
  unfold Emplace
  by_cases hi : i = v.data.length
  · rw [if_pos hi]
    refine ⟨?_, rfl⟩
    rw [emplaceBack_data, hi, List.take_length, List.drop_length]
  · rw [if_neg hi]
    have hlt : i < v.data.length := by omega
    by_cases hc : v.data.length = v.cap
    · rw [if_pos hc]
      refine ⟨?_, rfl⟩
      simp [relocate_fst]
    · rw [if_neg hc]
      exact ⟨emplaceNoGrow_eq v.data i x hlt, rfl⟩

theorem insertIdx_take_drop (l : List α) (i : Nat) (x : α) (h : i ≤ l.length) :
    (l.take i ++ x :: l.drop i).take i = l.take i
    ∧ (l.take i ++ x :: l.drop i).drop (i + 1) = l.drop i := by
  have hlen : (l.take i).length = i := by rw [List.length_take]; omega
  constructor
  · rw [List.take_append_eq_append_take, hlen, Nat.sub_self, List.take_take]
    have e : i ⊓ i = i := by omega
    rw [e]
    simp
  · rw [List.drop_append_eq_append_drop, hlen,
      List.drop_eq_nil_of_le (by rw [hlen]; omega)]
    have e : i + 1 - i = 1 := by omega
    rw [e]
    simp

/-- Claim C6: for every vector, position `pos` in `[begin, end]` and value `v`,
`Insert(pos, v)` followed by `Erase` on the returned iterator restores the
original element sequence and the original size. -/
theorem insert_erase_roundtrip (t : Traits) (v : Vec α) (i : Nat) (x : α)
    (h : i ≤ v.data.length) :
    (EraseV (Insert t v i x).fst (Insert t v i x).snd).fst.data = v.data
    ∧ (EraseV (Insert t v i x).fst (Insert t v i x).snd).fst.data.length
        = v.data.length := by
  unfold Insert
  obtain ⟨hdata, hsnd⟩ := emplace_data t v i x h
  rw [hsnd]
  have hlt : i < (Emplace t v i x).fst.data.length := by
    rw [hdata]
    simp only [List.length_append, List.length_cons, List.length_take]
    omega
  obtain ⟨hd, -⟩ := eraseV_data (Emplace t v i x).fst i hlt
  rw [hd, hdata]
  obtain ⟨h1, h2⟩ := insertIdx_take_drop v.data i x h
  rw [h1, h2, List.take_append_drop]
  exact ⟨rfl, rfl⟩

/-- Witness for `insert_erase_roundtrip` at `v = [1, 2, 3]`, `pos = begin + 1`,
value `9`. -/
theorem insert_erase_roundtrip_witness :
    (EraseV (Insert ⟨true, true⟩ (⟨[1, 2, 3], 3, 0⟩ : Vec Nat) 1 9).fst
        (Insert ⟨true, true⟩ (⟨[1, 2, 3], 3, 0⟩ : Vec Nat) 1 9).snd).fst.data = [1, 2, 3]
    ∧ (EraseV (Insert ⟨true, true⟩ (⟨[1, 2, 3], 3, 0⟩ : Vec Nat) 1 9).fst
        (Insert ⟨true, true⟩ (⟨[1, 2, 3], 3, 0⟩ : Vec Nat) 1 9).snd).fst.data.length = 3 :=
  insert_erase_roundtrip ⟨true, true⟩ (⟨[1, 2, 3], 3, 0⟩ : Vec Nat) 1 9 (by decide)

theorem runPP_data (t : Traits) (v : Vec α) (ops : List (PP α)) :
    (runPP t v ops).data = specStack v.data ops := by
  induction ops generalizing v with
  | nil => rfl
  | cons op r ih =>
    cases op with
    | push x =>
      simp only [runPP, specStack]
      rw [ih]
      congr 1
      show (EmplaceBack t v x).fst.data = v.data ++ [x]
      exact emplaceBack_data t v x
    | pop =>
      simp only [runPP, specStack]
      rw [ih]
      rfl

theorem specStack_length (acc : List α) (ops : List (PP α))
    (h : ppValidB acc.length ops = true) :
    (specStack acc ops).length + countPop ops = acc.length + countPush ops := by
  induction ops generalizing acc with
  | nil => simp [specStack, countPush, countPop]
  | cons op r ih =>
    cases op with
    | push x =>
      simp only [specStack, countPush, countPop]
      have h' : ppValidB (acc ++ [x]).length r = true := by
        simp only [List.length_append, List.length_cons, List.length_nil]
        simpa [ppValidB] using h
      have hh := ih (acc ++ [x]) h'
      simp only [List.length_append, List.length_cons, List.length_nil] at hh
      omega
    | pop =>
      simp only [specStack, countPush, countPop]
      simp only [ppValidB, Bool.and_eq_true, decide_eq_true_eq] at h
      obtain ⟨hpos, hr⟩ := h
      have h' : ppValidB acc.dropLast.length r = true := by
        rw [List.length_dropLast]
        exact hr
      have hh := ih acc.dropLast h'
      rw [List.length_dropLast] at hh
      omega

/-- Claim C5: for every interleaved `PushBack`/`PopBack` sequence from the
empty vector, with pops applied only at positive size, the final size is
pushes minus pops and the live elements are exactly the pushed, unpopped
values in push order (the reference stack semantics `specStack`). -/
theorem push_pop_sequences (t : Traits) (ops : List (PP α))
    (h : ppValidB 0 ops = true) :
    (runPP t vecDefault ops).data = specStack [] ops
    ∧ (runPP t vecDefault ops).data.length = countPush ops - countPop ops := by
  have hd : (runPP t (vecDefault (α := α)) ops).data = specStack [] ops :=
    runPP_data t vecDefault ops
  refine ⟨hd, ?_⟩
  have hl := specStack_length ([] : List α) ops h
  rw [hd]
  simp only [List.length_nil, Nat.zero_add] at hl
  omega

/-- Witness for `push_pop_sequences`: push 1, push 2, pop, push 3. -/
theorem push_pop_sequences_witness :
    (runPP ⟨true, true⟩ (vecDefault : Vec Nat)
        [PP.push 1, PP.push 2, PP.pop, PP.push 3]).data
      = specStack [] [PP.push 1, PP.push 2, PP.pop, PP.push 3]
    ∧ (runPP ⟨true, true⟩ (vecDefault : Vec Nat)
        [PP.push 1, PP.push 2, PP.pop, PP.push 3]).data.length
      = countPush [PP.push (1 : Nat), PP.push 2, PP.pop, PP.push 3]
        - countPop [PP.push (1 : Nat), PP.push 2, PP.pop, PP.push 3] :=
  push_pop_sequences ⟨true, true⟩ [PP.push 1, PP.push 2, PP.pop, PP.push 3] (by decide)

theorem reserve_le (t : Traits) (v : Vec α) (n : Nat) (h : n ≤ v.cap) :
    Reserve t v n = (v, none) := by
  unfold Reserve
  rw [if_pos h]

theorem reserve_gt (t : Traits) (v : Vec α) (n : Nat) (h : v.cap < n) :
    Reserve t v n
      = ({ data := v.data, cap := n, blk := v.blk + 1 }, some (relocate t v.data).snd) := by
  unfold Reserve
  rw [if_neg (by omega)]
  simp [relocate_fst]

theorem pushAll_no_realloc (t : Traits) (v : Vec α) (xs : List α)
    (h : v.data.length + xs.length ≤ v.cap) :
    (pushAll t v xs).blk = v.blk ∧ (pushAll t v xs).cap = v.cap
    ∧ (pushAll t v xs).data = v.data ++ xs := by
  induction xs generalizing v with
  | nil => simp [pushAll]
  | cons x r ih =>
    simp only [List.length_cons] at h
    have hne : ¬ v.data.length = v.cap := by omega
    have hstep : (EmplaceBack t v x).fst = ⟨v.data ++ [x], v.cap, v.blk⟩ := by
      unfold EmplaceBack
      rw [if_neg hne]
    have hh : (⟨v.data ++ [x], v.cap, v.blk⟩ : Vec α).data.length + r.length ≤ v.cap := by
      simp only [List.length_append, List.length_cons, List.length_nil]
      omega
    have hr := ih ⟨v.data ++ [x], v.cap, v.blk⟩ hh
    simp only [pushAll, List.foldl_cons] at hr ⊢
    rw [hstep]
    refine ⟨hr.1, hr.2.1, ?_⟩
    rw [hr.2.2]
    simp

/-- Claim C7: `Reserve(n)` establishes capacity at least `n`; it is a complete
no-op when the capacity is already at least `n`; and after `Reserve(n)` on an
empty vector, any sequence of at most `n` appends keeps the storage block and
the capacity unchanged (no reallocation) and simply accumulates the appended
values. -/
theorem reserve_contract (t : Traits) (v : Vec α) (n : Nat) (xs : List α) :
    n ≤ (Reserve t v n).fst.cap
    ∧ (n ≤ v.cap → (Reserve t v n).fst = v ∧ (Reserve t v n).snd = none)
    ∧ (v.data = [] → xs.length ≤ n →
        (pushAll t (Reserve t v n).fst xs).blk = (Reserve t v n).fst.blk
        ∧ (pushAll t (Reserve t v n).fst xs).cap = (Reserve t v n).fst.cap
        ∧ (pushAll t (Reserve t v n).fst xs).data = xs) := by
  refine ⟨?_, fun h => by rw [reserve_le t v n h]; exact ⟨rfl, rfl⟩, ?_⟩
  · by_cases hc : n ≤ v.cap
    · rw [reserve_le t v n hc]
      exact hc
    · rw [reserve_gt t v n (by omega)]
  · intro hemp hlen
    by_cases hc : n ≤ v.cap
    · rw [reserve_le t v n hc]
      have hp := pushAll_no_realloc t v xs
        (by rw [hemp]; simpa using le_trans hlen hc)
      refine ⟨hp.1, hp.2.1, ?_⟩
      rw [hp.2.2, hemp]
      simp
    · rw [reserve_gt t v n (by omega)]
      have hp := pushAll_no_realloc t (⟨v.data, n, v.blk + 1⟩ : Vec α) xs
        (by rw [hemp]; simpa using hlen)
      refine ⟨hp.1, hp.2.1, ?_⟩
      rw [hp.2.2, hemp]
      simp

/-- Witness for `reserve_contract`: a vector that already has capacity 5,
`Reserve(3)` (a no-op), then two appends. -/
theorem reserve_contract_witness :
    3 ≤ (Reserve ⟨true, true⟩ (⟨[], 5, 0⟩ : Vec Nat) 3).fst.cap
    ∧ ((Reserve ⟨true, true⟩ (⟨[], 5, 0⟩ : Vec Nat) 3).fst = (⟨[], 5, 0⟩ : Vec Nat)
        ∧ (Reserve ⟨true, true⟩ (⟨[], 5, 0⟩ : Vec Nat) 3).snd = none)
    ∧ ((pushAll ⟨true, true⟩ (Reserve ⟨true, true⟩ (⟨[], 5, 0⟩ : Vec Nat) 3).fst [7, 8]).blk
          = (Reserve ⟨true, true⟩ (⟨[], 5, 0⟩ : Vec Nat) 3).fst.blk
        ∧ (pushAll ⟨true, true⟩ (Reserve ⟨true, true⟩ (⟨[], 5, 0⟩ : Vec Nat) 3).fst [7, 8]).cap
          = (Reserve ⟨true, true⟩ (⟨[], 5, 0⟩ : Vec Nat) 3).fst.cap
        ∧ (pushAll ⟨true, true⟩ (Reserve ⟨true, true⟩ (⟨[], 5, 0⟩ : Vec Nat) 3).fst [7, 8]).data
          = [7, 8]) := by
  have h := reserve_contract ⟨true, true⟩ (⟨[], 5, 0⟩ : Vec Nat) 3 [7, 8]
  exact ⟨h.1, h.2.1 (by decide), h.2.2 rfl (by decide)⟩

/-- Claim C8 counterexample: `PushBack` has return type `void` — at a concrete
call appending the element at index 0, the value it returns is a `void`
return, not a reference to the appended element. -/
theorem pushBack_void_counterexample :
    (PushBack ⟨true, true⟩ (vecDefault : Vec Nat) 5).snd = RetVal.vd
    ∧ RetVal.vd ≠ RetVal.ref 0 :=
  ⟨rfl, by decide⟩

/-- Claim C8 (amended): `PushBack` and `EmplaceBack` each append exactly one
element constructed from the arguments; `EmplaceBack` returns a reference to
the newly appended element (the slot at the old size), while `PushBack`
returns `void`. -/
theorem append_one_element (t : Traits) (v : Vec α) (x : α) :
    (EmplaceBack t v x).fst.data = v.data ++ [x]
    ∧ (EmplaceBack t v x).snd = v.data.length
    ∧ (PushBack t v x).fst.data = v.data ++ [x]
    ∧ (PushBack t v x).snd = RetVal.vd := by
  refine ⟨emplaceBack_data t v x, ?_, ?_, rfl⟩
  · unfold EmplaceBack
    split <;> rfl
  · show (EmplaceBack t v x).fst.data = v.data ++ [x]
    exact emplaceBack_data t v x

/-- Claim C10: self-assignment — copy-assigning or move-assigning a vector to
itself (the `this == &rhs` guard taken) — leaves it completely unchanged. -/
theorem self_assignment_noop (v : Vec α) :
    copyAssign v v true = v ∧ (moveAssign v v true).self = v
    ∧ (moveAssign v v true).rhs = v :=
  ⟨rfl, rfl, rfl⟩

/-- Claim C2 (code-bug evidence): take a full vector of size 1 (`size_ ==
Capacity()`) over an element type whose construction throws.  The growth path
sets `new_vector.size_ = size_` BEFORE constructing anything into the new
buffer, so when constructing the new element throws, stack unwinding runs
`new_vector`'s destructor, whose `std::destroy_n(data_, size_)` destroys a
slot that never held a live object — not a valid destruction (undefined
behaviour) — even though the original vector itself was not touched. -/
theorem emplaceBack_throw_destroys_uninitialized :
    (emplaceBackThrowState (⟨[7], 1, 0⟩ : Vec Nat)).snd = (⟨[7], 1, 0⟩ : Vec Nat)
    ∧ (emplaceBackThrowState (⟨[7], 1, 0⟩ : Vec Nat)).fst.2 = (0, 1)
    ∧ destroyOkB (emplaceBackThrowState (⟨[7], 1, 0⟩ : Vec Nat)).fst.1
        (emplaceBackThrowState (⟨[7], 1, 0⟩ : Vec Nat)).fst.2.1
        (emplaceBackThrowState (⟨[7], 1, 0⟩ : Vec Nat)).fst.2.2 = false := by
  decide

/-- Claim C3 (code-bug evidence): move-assignment in the shrinking in-place
branch — source size 1 below destination size 3, within destination capacity
3.  `Swap(rhs)` does transfer the source's content, but the following
`std::destroy_n(data_.GetAddress() + rhs.size_, size_ - rhs.size_)` evaluates
its arguments AFTER the swap: offset 3 (the destination's old size) and count
`1 - 3` wrapped as a `size_t` to `2 ^ 64 - 2`, a destroy range lying entirely
outside the one live element (and the capacity 1) of the newly owned buffer —
undefined behaviour instead of the claimed clean shrinking assignment. -/
theorem moveAssign_shrink_invalid_destroy :
    (moveAssign (⟨[10, 20, 30], 3, 0⟩ : Vec Nat) (⟨[7], 1, 1⟩ : Vec Nat) false).self.data
        = [7]
    ∧ (moveAssign (⟨[10, 20, 30], 3, 0⟩ : Vec Nat) (⟨[7], 1, 1⟩ : Vec Nat) false).destroyCall
        = some (3, 2 ^ 64 - 2)
    ∧ ¬ (3 + (2 ^ 64 - 2)
        ≤ (moveAssign (⟨[10, 20, 30], 3, 0⟩ : Vec Nat)
            (⟨[7], 1, 1⟩ : Vec Nat) false).self.cap) := by
  decide

/-- Claim C4 (code-bug evidence): at two distinct `RawMemory` objects — the
destination owning block 1 with capacity 2, the source owning block 2 with
capacity 3 — the move-assignment does release the destination's old block,
transfer the source's block and capacity, and null the source; but the
function body ends without a `return` statement, so it does NOT return a
reference to the destination (undefined behaviour for a reference-returning
function; the release itself is written as the ill-formed statement
`~RawMemory();`). -/
theorem rawMemory_moveAssign_no_return :
    (rawMoveAssign ⟨some 1, 2⟩ ⟨some 2, 3⟩ false).dst = ⟨some 2, 3⟩
    ∧ (rawMoveAssign ⟨some 1, 2⟩ ⟨some 2, 3⟩ false).src = ⟨none, 0⟩
    ∧ (rawMoveAssign ⟨some 1, 2⟩ ⟨some 2, 3⟩ false).freed = some 1
    ∧ (rawMoveAssign ⟨some 1, 2⟩ ⟨some 2, 3⟩ false).returned = false := by
  decide

theorem emplaceBack_inv (t : Traits) (v : Vec α) (x : α) (h1 : VecInv v) :
    VecInv (EmplaceBack t v x).fst := by
  unfold EmplaceBack
  by_cases hc : v.data.length = v.cap
  · rw [if_pos hc]
    show ((relocate t v.data).fst ++ [x]).length
        ≤ if v.data.length = 0 then 1 else v.data.length * 2
    rw [relocate_fst]
    by_cases h0 : v.data.length = 0
    · simp [h0]
    · rw [if_neg h0]
      simp only [List.length_append, List.length_cons, List.length_nil]
      omega
  · rw [if_neg hc]
    show (v.data ++ [x]).length ≤ v.cap
    simp only [List.length_append, List.length_cons, List.length_nil]
    unfold VecInv at h1
    omega

theorem emplace_inv (t : Traits) (v : Vec α) (i : Nat) (x : α)
    (h1 : VecInv v) (h2 : i ≤ v.data.length) : VecInv (Emplace t v i x).fst := by
  unfold Emplace
  by_cases hi : i = v.data.length
  · rw [if_pos hi]
    exact emplaceBack_inv t v x h1
  · rw [if_neg hi]
    have hlt : i < v.data.length := by omega
    by_cases hc : v.data.length = v.cap
    · rw [if_pos hc]
      show ((relocate t (v.data.take i)).fst ++ [x] ++ (relocate t (v.data.drop i)).fst).length
          ≤ if v.data.length = 0 then 1 else v.data.length * 2
      rw [relocate_fst, relocate_fst, if_neg (by omega)]
      simp only [List.length_append, List.length_cons, List.length_nil,
        List.length_take, List.length_drop]
      omega
    · rw [if_neg hc]
      show (emplaceNoGrow v.data i x).length ≤ v.cap
      rw [emplaceNoGrow_eq v.data i x hlt]
      simp only [List.length_append, List.length_cons, List.length_take,
        List.length_drop]
      unfold VecInv at h1
      omega

theorem copyAssign_inv (v w : Vec α) (h1 : VecInv v) :
    VecInv (copyAssign v w false) := by
  unfold copyAssign
  rw [if_neg Bool.false_ne_true]
  by_cases b1 : v.cap < w.data.length
  · rw [if_pos b1]
  · rw [if_neg b1]
    by_cases b2 : w.data.length < v.data.length
    · rw [if_pos b2]
      show ((writeSeg v.data 0 w.data).take w.data.length).length ≤ v.cap
      rw [List.length_take]
      omega
    · rw [if_neg b2]
      show (writeSeg v.data 0 (w.data.take v.data.length) ++
          (w.data.drop v.data.length).take (w.data.length - v.data.length)).length ≤ v.cap
      unfold writeSeg
      simp only [List.length_append, List.length_take, List.length_drop,
        List.take_zero, List.length_nil, Nat.zero_add]
      omega

theorem moveAssign_self_inv (v w : Vec α) (hw : VecInv w) :
    VecInv (moveAssign v w false).self := by
  unfold moveAssign
  rw [if_neg Bool.false_ne_true]
  by_cases b1 : v.cap < w.data.length
  · rw [if_pos b1]
    exact hw
  · rw [if_neg b1]
    by_cases b2 : w.data.length < v.data.length
    · rw [if_pos b2]
      exact hw
    · rw [if_neg b2]
      exact hw

theorem stepOp_inv (t : Traits) (v : Vec α) (op : VOp α)
    (h1 : VecInv v) (h2 : opValidB v op = true) : VecInv (stepOp t v op) := by
  cases op with
  | reserveOp n =>
    show VecInv (Reserve t v n).fst
    by_cases hc : n ≤ v.cap
    · rw [reserve_le t v n hc]
      exact h1
    · rw [reserve_gt t v n (by omega)]
      show v.data.length ≤ n
      unfold VecInv at h1
      omega
  | resizeOp n d =>
    show VecInv (Resize t v n d)
    unfold Resize
    by_cases hs : n < v.data.length
    · rw [if_pos hs]
      show (v.data.take n).length ≤ v.cap
      rw [List.length_take]
      unfold VecInv at h1
      omega
    · rw [if_neg hs]
      by_cases hg : v.data.length < n
      · rw [if_pos hg]
        by_cases hc : n ≤ v.cap
        · rw [reserve_le t v n hc]
          show (v.data ++ List.replicate (n - v.data.length) d).length ≤ v.cap
          simp only [List.length_append, List.length_replicate]
          omega
        · rw [reserve_gt t v n (by omega)]
          show (v.data ++ List.replicate (n - v.data.length) d).length ≤ n
          simp only [List.length_append, List.length_replicate]
          unfold VecInv at h1
          omega
      · rw [if_neg hg]
        exact h1
  | pushOp x => exact emplaceBack_inv t v x h1
  | popOp =>
    show (PopBack v).data.length ≤ (PopBack v).cap
    show v.data.dropLast.length ≤ v.cap
    rw [List.length_dropLast]
    unfold VecInv at h1
    omega
  | emplaceBackOp x => exact emplaceBack_inv t v x h1
  | emplaceOp i x =>
    simp only [opValidB, decide_eq_true_eq] at h2
    exact emplace_inv t v i x h1 h2
  | insertOp i x =>
    simp only [opValidB, decide_eq_true_eq] at h2
    exact emplace_inv t v i x h1 h2
  | eraseOp i =>
    simp only [opValidB, decide_eq_true_eq] at h2
    obtain ⟨hd, -⟩ := eraseV_data v i h2
    show (EraseV v i).fst.data.length ≤ (EraseV v i).fst.cap
    have hcap : (EraseV v i).fst.cap = v.cap := rfl
    rw [hd, hcap]
    simp only [List.length_append, List.length_take, List.length_drop]
    unfold VecInv at h1
    omega
  | swapOp w =>
    simp only [opValidB, decide_eq_true_eq] at h2
    exact h2
  | copyAssignOp w =>
    exact copyAssign_inv v w h1
  | moveAssignOp w =>
    simp only [opValidB, decide_eq_true_eq] at h2
    exact moveAssign_self_inv v w h2

theorem runOps_inv (t : Traits) (v : Vec α) (ops : List (VOp α))
    (h1 : VecInv v) (h2 : validSeqB t v ops = true) : VecInv (runOps t v ops) := by
  induction ops generalizing v with
  | nil => exact h1
  | cons op r ih =>
    simp only [validSeqB, Bool.and_eq_true] at h2
    exact ih (stepOp t v op) (stepOp_inv t v op h1 h2.1) h2.2

/-- Claim C9: starting from any constructed state satisfying it, and along any
sequence of public-interface operations whose preconditions hold, the
invariant `0 <= size <= capacity` is preserved; both constructors establish
it. -/
theorem size_le_capacity_invariant (t : Traits) (v : Vec α) (ops : List (VOp α))
    (n : Nat) (d : α) (h1 : VecInv v) (h2 : validSeqB t v ops = true) :
    VecInv (runOps t v ops) ∧ VecInv (vecDefault (α := α)) ∧ VecInv (vecOfSize n d) := by
  refine ⟨runOps_inv t v ops h1 h2, ?_, ?_⟩
  · show ([] : List α).length ≤ 0
    simp
  · show (List.replicate n d).length ≤ n
    simp

/-- Witness for `size_le_capacity_invariant`: an eight-operation run from the
default-constructed vector exercising growth, reservation, positional
insertion and erasure, resize and move-assignment. -/
theorem size_le_capacity_invariant_witness :
    VecInv (runOps ⟨true, true⟩ (vecDefault : Vec Nat)
        [VOp.pushOp 1, VOp.pushOp 2, VOp.reserveOp 4, VOp.insertOp 1 9,
          VOp.eraseOp 0, VOp.popOp, VOp.resizeOp 3 0, VOp.moveAssignOp ⟨[5], 1, 7⟩])
    ∧ VecInv (vecDefault (α := Nat)) ∧ VecInv (vecOfSize 2 (0 : Nat)) :=
  size_le_capacity_invariant ⟨true, true⟩ (vecDefault : Vec Nat)
    [VOp.pushOp 1, VOp.pushOp 2, VOp.reserveOp 4, VOp.insertOp 1 9,
      VOp.eraseOp 0, VOp.popOp, VOp.resizeOp 3 0, VOp.moveAssignOp ⟨[5], 1, 7⟩]
    2 0 (by decide) (by decide)

end AdvVector
